import Mathlib

/-!
Shallow embedding of `download_cancer_distribution_batch.py`.

The program computes, per gene, the distribution of somatic-mutation
occurrences across cancer projects.  Pure logic is translated directly;
the two HTTP endpoints are abstracted as oracles (`Except`-valued
functions: `Except.error` models a non-ok HTTP response or a raised
exception, `Except.ok` a parsed JSON payload).  Python `float` arithmetic
(the single percentage computation `cases / total * 100`) is modelled by
exact rationals `ℚ`.  Python `dict` (insertion ordered) is modelled by an
association list, Python `set` by `Finset`.
-/

/-- Python `str.split(sep)` on a single separator character, at the
character-list level: splits on every occurrence, keeping empty pieces
(`"".split(t)` gives one empty piece). -/
def splitChar (sep : Char) : List Char → List (List Char)
  | [] => [[]]
  | c :: rest =>
    match splitChar sep rest with
    | [] => [[]]
    | g :: gs => if c = sep then [] :: g :: gs else (c :: g) :: gs

/-- Python `str.split(sep)` for strings. -/
def pySplit (sep : Char) (s : String) : List String :=
  (splitChar sep s.data).map String.mk

/-- Python `str.strip()`: drop whitespace from both ends. -/
def pyStrip (s : String) : String :=
  String.mk (((s.data.dropWhile Char.isWhitespace).reverse.dropWhile Char.isWhitespace).reverse)

/-- Python `str.lower()` (ASCII case folding, which is all the source needs
to compare a header cell against the literal `"to"`). -/
def pyLower (s : String) : String :=
  String.mk (s.data.map Char.toLower)

/-- Python `str.startswith(pre)`. -/
def pyStartswith (s pre : String) : Bool :=
  pre.data.isPrefixOf s.data

/-- Source constant `GENE_PREFIX = "ENSG"`. -/
def genePref : String :=
  "ENSG"

/-- Source constant `OUT_DIR`. -/
def outDir : String :=
  "cancer_distribution_tsv"

/-- Source: `gene_id = raw_id.split(".")[0]` — the characters of `raw_id`
before the first `'.'` (split on first dot, keep the leading piece). -/
def extract_gene_id (raw_id : String) : String :=
  String.mk (raw_id.data.takeWhile (fun c => c ≠ '.'))

/-- One iteration of the row loop in `load_gene_ids`: strip the line, skip
blanks, split on tabs, skip short rows, strip the `To` cell, skip empties,
strip the version suffix, and keep the id only if it has the gene prefix
(`gene_ids.add(gene_id)` on a Python set becomes `Finset.insert`). -/
def row_step (to_idx : Nat) (acc : Finset String) (line : String) : Finset String :=
  let l := pyStrip line
  if l = "" then acc
  else
    let cols := pySplit '\t' l
    if cols.length ≤ to_idx then acc
    else
      let raw_id := pyStrip (cols.getD to_idx "")
      if raw_id = "" then acc
      else
        let gene_id := extract_gene_id raw_id
        if pyStartswith gene_id genePref then insert gene_id acc else acc

/-- Source `load_gene_ids`: the input file is modelled as its list of
lines (newlines already removed, as `readline().rstrip` and line
iteration produce them).  The first line is the header; the column whose
stripped, lowered name equals `"to"` is located (first match, as the
Python list comprehension indexed by `[0]`), and a missing column raises
(`RuntimeError`, modelled as `Except.error`).  The collected set is
returned sorted (`sorted(gene_ids)`). -/
def load_gene_ids (lines : List String) : Except String (List String) :=
  let headers := pySplit '\t' (lines.headD "")
  match headers.findIdx? (fun h => pyLower (pyStrip h) == "to") with
  | none => Except.error ("no To column")
  | some to_idx => Except.ok ((lines.tail.foldl (row_step to_idx) ∅).sort (fun a b => a ≤ b))

/-- A hit's `case.project` sub-object: `none` for a field the JSON object
does not carry (Python raises `KeyError` on access). -/
structure HitProject where
  project_id : Option String
deriving DecidableEq

/-- A hit's `case` sub-object. -/
structure HitCase where
  project : Option HitProject
  case_id : Option String
deriving DecidableEq

/-- One element of `resp.json()["data"]["hits"]`.  A present-but-falsy
value (JSON `null` or empty string) is modelled as `some ""`; an absent
key as `none`. -/
structure Hit where
  caseField : Option HitCase
deriving DecidableEq

/-- The `proj_to_cases` dictionary (`defaultdict(set)`): an
insertion-ordered association list from project id to the set of case
ids. -/
abbrev OccMap := List (String × Finset String)

/-- The effect of `proj_to_cases[proj].add(case_id)` on a `defaultdict(set)`:
add to the existing entry, or create a new entry at the end (Python dicts
keep insertion order). -/
def occ_insert (m : OccMap) (proj case_id : String) : OccMap :=
  match m with
  | [] => [(proj, {case_id})]
  | (p, s) :: rest =>
    if p = proj then (p, insert case_id s) :: rest else (p, s) :: occ_insert rest proj case_id

/-- The body of the hit loop in `get_mutated_cases_by_project`:
`proj = item["case"]["project"]["project_id"]`, then
`case_id = item["case"]["case_id"]`, then
`if proj and case_id: proj_to_cases[proj].add(case_id)`.
Each subscript on a missing key raises `KeyError` (modelled as
`Except.error`); the truthiness test silently skips falsy values. -/
def addHit (m : OccMap) (item : Hit) : Except String OccMap :=
  match item.caseField with
  | none => Except.error ("KeyError: case")
  | some c =>
    match c.project with
    | none => Except.error ("KeyError: project")
    | some pr =>
      match pr.project_id with
      | none => Except.error ("KeyError: project_id")
      | some proj =>
        match c.case_id with
        | none => Except.error ("KeyError: case_id")
        | some case_id =>
          Except.ok (if proj ≠ "" ∧ case_id ≠ "" then occ_insert m proj case_id else m)

/-- Source `get_mutated_cases_by_project`: the HTTP layer is abstracted
into `resp`, the outcome of the occurrence query for one gene
(`Except.error` models `not resp.ok`, which the source turns into a
raised `RuntimeError`).  On success the hit list is folded into the
project-to-cases map. -/
def get_mutated_cases_by_project (resp : Except String (List Hit)) : Except String OccMap :=
  match resp with
  | Except.error e => Except.error e
  | Except.ok hits => hits.foldlM addHit []

/-- The process-wide `proj_total_cache` dictionary. -/
abbrev Cache := List (String × Nat)

/-- Source `get_total_ssm_cases_for_project`: `net` abstracts the
`case_ssms` endpoint (it returns the `pagination.total` of the response,
or an error for a non-ok response / raised exception).  The result is the
returned value, the updated cache, and the number of network calls this
invocation issued (0 on a cache hit, 1 otherwise).  On a cache miss and a
successful response the total is appended to the cache
(`cache[project_id] = total` on a fresh key). -/
def get_total_ssm_cases_for_project (net : String → Except String Nat) (project_id : String)
    (cache : Cache) : Except String Nat × Cache × Nat :=
  match cache.lookup project_id with
  | some v => (Except.ok v, cache, 0)
  | none =>
    match net project_id with
    | Except.error e => (Except.error e, cache, 1)
    | Except.ok total => (Except.ok total, cache ++ [(project_id, total)], 1)

/-- One output row of `write_cancer_distribution_tsv` (the dict literal
appended to `rows`).  The Python float percentage is modelled as an exact
rational; `None` as `none`. -/
structure DistRow where
  project_id : String
  cases_affected : Nat
  total_cases_with_ssm_data : Nat
  percent_cases_affected : Option ℚ
deriving DecidableEq

/-- The sort key `r["percent_cases_affected"] or 0` (`None`, and a zero
percentage, both give the key `0`). -/
def sortKey (r : DistRow) : ℚ :=
  (r.percent_cases_affected).getD 0

/-- The row-building loop of `write_cancer_distribution_tsv`:
`cases_affected = len(case_set)`;
`total_ssm = proj_total_ssm_cases.get(proj, 0)`;
`pct = (cases_affected / total_ssm * 100) if total_ssm else None`;
one row per entry, in the map's iteration order. -/
def makeRows (proj_to_cases : OccMap) (proj_total_ssm_cases : List (String × Nat)) : List DistRow :=
  proj_to_cases.map (fun pc =>
    let cases_affected := pc.2.card
    let total_ssm := (proj_total_ssm_cases.lookup pc.1).getD 0
    { project_id := pc.1
      cases_affected := cases_affected
      total_cases_with_ssm_data := total_ssm
      percent_cases_affected :=
        if total_ssm ≠ 0 then some ((cases_affected : ℚ) / (total_ssm : ℚ) * 100) else none })

/-- The aggregation of `write_cancer_distribution_tsv`:
`rows.sort(key=lambda r: (r["percent_cases_affected"] or 0), reverse=True)`.
Python list sort is stable; a stable descending sort by key is the stable
merge sort under the relation `sortKey b ≤ sortKey a`. -/
def distribution_rows (proj_to_cases : OccMap) (proj_total_ssm_cases : List (String × Nat)) :
    List DistRow :=
  (makeRows proj_to_cases proj_total_ssm_cases).mergeSort
    (fun a b => decide (sortKey b ≤ sortKey a))

/-- Decimal digit to its character, as Python integer formatting emits it. -/
def digitChar (d : Nat) : Char :=
  Char.ofNat (48 + d)

/-- Decimal characters of a positive natural, most significant first. -/
def natChars (n : Nat) : List Char :=
  ((Nat.digits 10 n).map digitChar).reverse

/-- Decimal characters of a natural (Python `str(n)`, so `0` is `"0"`). -/
def natCharsFull (n : Nat) : List Char :=
  if n = 0 then ['0'] else natChars n

/-- Python `str` of a nonnegative integer field, as the csv writer emits it. -/
def natSerialize (n : Nat) : String :=
  String.mk (natCharsFull n)

/-- Decimal characters of an integer, with a leading minus sign when
negative. -/
def intChars (i : Int) : List Char :=
  (if i < 0 then ['-'] else []) ++ natCharsFull i.natAbs

/-- Rendering of the percentage field.  The source prints the Python
float (whose `repr` is injective on floats and round-trips); the exact
rational model prints the reduced numerator and denominator, an injective
numeric rendering with the same round-trip property. -/
def ratSerialize (q : ℚ) : String :=
  String.mk (intChars q.num ++ '/' :: natCharsFull q.den)

/-- The four fixed `fieldnames` of the csv writer. -/
def tsv_header : List String :=
  ["project_id", "cases_affected", "total_cases_with_ssm_data", "percent_cases_affected"]

/-- The serialized fields of one row, in `fieldnames` order; `None` is
written as an empty field by the csv writer. -/
def rowFields (r : DistRow) : List String :=
  [r.project_id, natSerialize r.cases_affected, natSerialize r.total_cases_with_ssm_data,
    match r.percent_cases_affected with
    | none => ""
    | some q => ratSerialize q]

/-- The file body emitted by the csv writer, one record per line (the
writer joins each record's fields with tabs): the header record, then one
record per row in the report's order. -/
def write_report (report : List DistRow) : List (List String) :=
  tsv_header :: report.map rowFields

/-- Source `os.path.join(OUT_DIR, gene_id + suffix)`. -/
def out_path (gene_id : String) : String :=
  outDir ++ "/" ++ gene_id ++ "_cancer_distribution_ssm.tsv"

/-- Source `write_cancer_distribution_tsv`: aggregates, sorts, and emits
the file.  The filesystem is abstracted: the result is the output path
(which the source returns) paired with the written records. -/
def write_cancer_distribution_tsv (gene_id : String) (proj_to_cases : OccMap)
    (proj_total_ssm_cases : List (String × Nat)) : String × List (List String) :=
  (out_path gene_id, write_report (distribution_rows proj_to_cases proj_total_ssm_cases))

/-- Parse a nonempty all-digit character list as a decimal natural. -/
def natParseChars (cs : List Char) : Option Nat :=
  if cs.isEmpty then none
  else if cs.all (fun c => 48 ≤ c.toNat ∧ c.toNat ≤ 57) then
    some (cs.foldl (fun acc c => acc * 10 + (c.toNat - 48)) 0)
  else none

/-- Parse a decimal natural field. -/
def natParse (s : String) : Option Nat :=
  natParseChars s.data

/-- Parse an optionally minus-signed decimal integer. -/
def intParseChars (cs : List Char) : Option Int :=
  match cs with
  | [] => none
  | c :: rest =>
    if c = '-' then (natParseChars rest).map (fun n => -(n : Int))
    else (natParseChars (c :: rest)).map (fun n => (n : Int))

/-- Character test used to find the slash of a serialized rational. -/
def notSlash (c : Char) : Bool :=
  c ≠ '/'

/-- Parse a percentage field back to a rational: the integer part before
the slash over the natural part after it. -/
def ratParse (s : String) : Option ℚ :=
  match s.data.dropWhile notSlash with
  | _ :: denPart =>
    match intParseChars (s.data.takeWhile notSlash), natParseChars denPart with
    | some n, some d => some (mkRat n d)
    | _, _ => none
  | [] => none

/-- Re-parse one tab-separated record under the documented header: four
fields; two decimal counts; an empty percentage field means absent, a
nonempty one a numeric value. -/
def parseRecord (fields : List String) : Option DistRow :=
  match fields with
  | [p, c, t, pc] =>
    match natParse c, natParse t with
    | some ca, some ts =>
      if pc = "" then some (DistRow.mk p ca ts none)
      else (ratParse pc).map (fun q => DistRow.mk p ca ts (some q))
    | _, _ => none
  | _ => none

/-- Re-parse a written file (as records of tab-separated fields): the
first record must be the documented header, the rest are rows. -/
def parse_report (recs : List (List String)) : Option (List DistRow) :=
  match recs with
  | h :: rest => if h = tsv_header then rest.mapM parseRecord else none
  | [] => none

/-- Outcome of one gene in the driver loop. -/
inductive GeneResult where
  | fetchFailed (msg : String)
  | noOccurrences
  | written (path : String) (report : List DistRow)
deriving DecidableEq

/-- The per-gene denominator loop of `main`: for each project of the
occurrence map, call the resolver; a failure is caught and the project's
total becomes 0; every project is processed.  Returns the
`proj_total_ssm_cases` dict (in loop order), the evolved shared cache,
and the number of network calls issued. -/
def resolve_denominators (net : String → Except String Nat) :
    List String → Cache → List (String × Nat) × Cache × Nat
  | [], cache => ([], cache, 0)
  | p :: rest, cache =>
    let r := get_total_ssm_cases_for_project net p cache
    let total := match r.1 with
      | Except.ok v => v
      | Except.error _ => 0
    let rec_rest := resolve_denominators net rest r.2.1
    ((p, total) :: rec_rest.1, rec_rest.2.1, r.2.2 + rec_rest.2.2)

/-- One iteration of the gene loop in `main`: fetch occurrences (a raised
error is caught and the gene skipped); an empty map skips the gene with
no output; otherwise resolve all denominators and write the file. -/
def process_gene (occ : String → Except String (List Hit)) (net : String → Except String Nat)
    (cache : Cache) (gene_id : String) : GeneResult × Cache :=
  match get_mutated_cases_by_project (occ gene_id) with
  | Except.error e => (GeneResult.fetchFailed e, cache)
  | Except.ok proj_to_cases =>
    if proj_to_cases.isEmpty then (GeneResult.noOccurrences, cache)
    else
      let r := resolve_denominators net (proj_to_cases.map Prod.fst) cache
      ((GeneResult.written (write_cancer_distribution_tsv gene_id proj_to_cases r.1).1
        (distribution_rows proj_to_cases r.1)), r.2.1)

/-- The gene loop of `main`, threading the shared denominator cache and
collecting one outcome per gene, in order. -/
def run_genes (occ : String → Except String (List Hit)) (net : String → Except String Nat) :
    List String → Cache → List GeneResult × Cache
  | [], cache => ([], cache)
  | g :: gs, cache =>
    let pr := process_gene occ net cache g
    let rest := run_genes occ net gs pr.2
    (pr.1 :: rest.1, rest.2)

/-- Source `main`: load the gene ids (a loader failure propagates and
aborts the whole run), then process every gene with a fresh empty cache. -/
def main_run (occ : String → Except String (List Hit)) (net : String → Except String Nat)
    (lines : List String) : Except String (List GeneResult × Cache) :=
  match load_gene_ids lines with
  | Except.error e => Except.error e
  | Except.ok gene_ids => Except.ok (run_genes occ net gene_ids [])

/-- A well-formed hit with all four nested fields present. -/
def hitOf (pid cid : String) : Hit :=
  Hit.mk (some (HitCase.mk (some (HitProject.mk (some pid))) (some cid)))

/-- The occurrence map of the aggregator scenario in the specification. -/
def mA : OccMap :=
  [("ProjA", {"case1", "case2"}), ("ProjB", {"case3"})]

/-- The denominator map of the aggregator scenario in the specification. -/
def dA : List (String × Nat) :=
  [("ProjA", 10), ("ProjB", 0)]

/-- The identifier-loader scenario input table of the specification. -/
def scenLines : List String :=
  ["From\tTo", "g1\tENSG00000100342.3", "g2\tENSG00000100342", "g3\tinvalid123"]

lemma lookup_cons_eq (ak q : String) (av : Nat) (t : Cache) :
    List.lookup q ((ak, av) :: t) = if q = ak then some av else List.lookup q t := by
  by_cases hqa : q = ak
  · simp [List.lookup, hqa]
  · have hb : (q == ak) = false := by simpa using hqa
    simp [List.lookup, hb, hqa]

lemma lookup_append_of_some {c : Cache} (l : Cache) {q : String} {w : Nat}
    (h : c.lookup q = some w) : (c ++ l).lookup q = some w := by
  induction c with
  | nil => simp [List.lookup] at h
  | cons a t ih =>
    obtain ⟨ak, av⟩ := a
    rw [List.cons_append, lookup_cons_eq]
    rw [lookup_cons_eq] at h
    by_cases hqa : q = ak
    · rw [if_pos hqa] at h ⊢; exact h
    · rw [if_neg hqa] at h ⊢; exact ih h

lemma lookup_append_self {c : Cache} {q : String} (h : c.lookup q = none) (v : Nat) :
    (c ++ [(q, v)]).lookup q = some v := by
  induction c with
  | nil => simp [List.lookup]
  | cons a t ih =>
    obtain ⟨ak, av⟩ := a
    rw [List.cons_append, lookup_cons_eq]
    rw [lookup_cons_eq] at h
    by_cases hqa : q = ak
    · rw [if_pos hqa] at h; cases h
    · rw [if_neg hqa] at h ⊢; exact ih h

/-- C1: if the Denominator Resolver succeeds for a project, a second call
with the same project returns the same value with no network call and no
cache change; the first call issued at most one network call; existing
cache entries are never overwritten or removed, and the project's entry
is written (appended) only when it was absent. -/
theorem C1_cache_hit_no_second_call (net : String → Except String Nat) (p : String)
    (c c' : Cache) (v k : Nat)
    (h : get_total_ssm_cases_for_project net p c = (Except.ok v, c', k)) :
    get_total_ssm_cases_for_project net p c' = (Except.ok v, c', 0) ∧ k ≤ 1 ∧
      (∀ q w, c.lookup q = some w → c'.lookup q = some w) ∧
      (c.lookup p = none → c' = c ++ [(p, v)]) ∧
      (∀ w, c.lookup p = some w → c' = c) := by
  cases hc : c.lookup p with
  | some w =>
    rw [show get_total_ssm_cases_for_project net p c = (Except.ok w, c, 0) by
      simp [get_total_ssm_cases_for_project, hc]] at h
    injection h with h1 h23
    injection h23 with h2 h3
    injection h1 with h1
    subst h1 h2 h3
    refine ⟨?_, Nat.zero_le 1, fun q w hq => hq, ?_, fun w _ => rfl⟩
    · simp [get_total_ssm_cases_for_project, hc]
    · intro hn; exact Option.noConfusion hn
  | none =>
    cases hn : net p with
    | error e =>
      rw [show get_total_ssm_cases_for_project net p c = (Except.error e, c, 1) by
        simp [get_total_ssm_cases_for_project, hc, hn]] at h
      injection h with h1 h23
      exact Except.noConfusion h1
    | ok t =>
      rw [show get_total_ssm_cases_for_project net p c = (Except.ok t, c ++ [(p, t)], 1) by
        simp [get_total_ssm_cases_for_project, hc, hn]] at h
      injection h with h1 h23
      injection h23 with h2 h3
      injection h1 with h1
      subst h1 h2 h3
      refine ⟨?_, le_refl 1, ?_, fun _ => rfl, ?_⟩
      · have hl : (c ++ [(p, t)]).lookup p = some t := lookup_append_self hc t
        simp [get_total_ssm_cases_for_project, hl]
      · intro q w hq
        exact lookup_append_of_some _ hq
      · intro w hw; exact Option.noConfusion hw

/-- Witness for C1 at a concrete oracle, project and empty cache. -/
theorem C1_cache_hit_no_second_call_witness :
    get_total_ssm_cases_for_project (fun _ => Except.ok 7) ("P") [("P", 7)] =
      (Except.ok 7, [("P", 7)], 0) :=
  (C1_cache_hit_no_second_call (fun _ => Except.ok 7) ("P") [] [("P", 7)] 7 1 rfl).1

/-- C7: if the Occurrence Fetcher succeeds with an empty map, the driver
records a no-output outcome for that gene (not a written file, and
distinct from a fetch failure), leaves the cache unchanged, and proceeds
with the remaining genes. -/
theorem C7_empty_map_skips_gene (occ : String → Except String (List Hit))
    (net : String → Except String Nat) (g : String) (gs : List String) (c : Cache)
    (h : get_mutated_cases_by_project (occ g) = Except.ok []) :
    run_genes occ net (g :: gs) c =
      (GeneResult.noOccurrences :: (run_genes occ net gs c).1, (run_genes occ net gs c).2) ∧
    (∀ e, GeneResult.noOccurrences ≠ GeneResult.fetchFailed e) ∧
    (∀ pth rep, GeneResult.noOccurrences ≠ GeneResult.written pth rep) := by
  refine ⟨?_, fun e h0 => GeneResult.noConfusion h0,
    fun pth rep h0 => GeneResult.noConfusion h0⟩
  simp [run_genes, process_gene, h]

/-- Witness for C7 with an oracle that returns an empty hit list. -/
theorem C7_empty_map_skips_gene_witness :
    run_genes (fun _ => Except.ok []) (fun _ => Except.ok 0) ["g"] [] =
      (GeneResult.noOccurrences ::
        (run_genes (fun _ => Except.ok []) (fun _ => Except.ok 0) [] []).1,
        (run_genes (fun _ => Except.ok []) (fun _ => Except.ok 0) [] []).2) :=
  (C7_empty_map_skips_gene (fun _ => Except.ok []) (fun _ => Except.ok 0) ("g") [] [] rfl).1

lemma get_total_calls_le_one (net : String → Except String Nat) (p : String) (c : Cache) :
    (get_total_ssm_cases_for_project net p c).2.2 ≤ 1 := by
  cases hc : c.lookup p with
  | some w => simp [get_total_ssm_cases_for_project, hc]
  | none =>
    cases hn : net p with
    | error e => simp [get_total_ssm_cases_for_project, hc, hn]
    | ok t => simp [get_total_ssm_cases_for_project, hc, hn]

/-- C6: per-gene and per-project failure isolation of the driver loop:
(i) the run produces exactly one outcome per gene, whatever the oracles
do, so no fetch or resolver failure aborts it; (ii) a fetch failure marks
only that gene as failed, leaves the cache unchanged and continues with
the remaining genes; (iii) a resolver failure for one project (cache
miss, failing network call) records denominator 0 for that project,
leaves the cache unchanged and continues with the remaining projects;
(iv) a gene whose fetch succeeded with a nonempty map is written even so;
(v) the resolver loop issues at most one network call per project of the
gene (no retries). -/
theorem C6_driver_failure_isolation (occ : String → Except String (List Hit))
    (net : String → Except String Nat) :
    (∀ (gs : List String) (c : Cache), (run_genes occ net gs c).1.length = gs.length) ∧
    (∀ (g : String) (gs : List String) (c : Cache) (e : String),
      get_mutated_cases_by_project (occ g) = Except.error e →
      run_genes occ net (g :: gs) c =
        (GeneResult.fetchFailed e :: (run_genes occ net gs c).1, (run_genes occ net gs c).2)) ∧
    (∀ (p : String) (ps : List String) (c : Cache) (e : String),
      c.lookup p = none → net p = Except.error e →
      resolve_denominators net (p :: ps) c =
        ((p, 0) :: (resolve_denominators net ps c).1, (resolve_denominators net ps c).2.1,
          1 + (resolve_denominators net ps c).2.2)) ∧
    (∀ (g : String) (gs : List String) (c : Cache) (m : OccMap),
      get_mutated_cases_by_project (occ g) = Except.ok m → m ≠ [] →
      (run_genes occ net (g :: gs) c).1 =
        GeneResult.written (out_path g)
            (distribution_rows m (resolve_denominators net (m.map Prod.fst) c).1) ::
          (run_genes occ net gs (resolve_denominators net (m.map Prod.fst) c).2.1).1) ∧
    (∀ (ps : List String) (c : Cache), (resolve_denominators net ps c).2.2 ≤ ps.length) := by
  refine ⟨?_, ?_, ?_, ?_, ?_⟩
  · intro gs
    induction gs with
    | nil => intro c; rfl
    | cons g t ih => intro c; simp [run_genes, ih]
  · intro g gs c e h
    simp [run_genes, process_gene, h]
  · intro p ps c e hc hn
    simp [resolve_denominators, get_total_ssm_cases_for_project, hc, hn]
  · intro g gs c m h hm
    have hne : m.isEmpty = false := by
      cases m with
      | nil => exact absurd rfl hm
      | cons a t => rfl
    simp [run_genes, process_gene, h, hne, write_cancer_distribution_tsv]
  · intro ps
    induction ps with
    | nil => intro c; exact Nat.zero_le 0
    | cons p t ih =>
      intro c
      have h1 := get_total_calls_le_one net p c
      have h2 := ih (get_total_ssm_cases_for_project net p c).2.1
      simp only [resolve_denominators, List.length_cons]
      omega

/-- Witness for C6 at concrete oracles: a failing fetch for one gene and
a failing denominator query for one project. -/
theorem C6_driver_failure_isolation_witness :
    run_genes (fun _ => Except.error ("boom")) (fun _ => Except.error ("down")) ["g"] [] =
      (GeneResult.fetchFailed ("boom") ::
        (run_genes (fun _ => Except.error ("boom")) (fun _ => Except.error ("down")) [] []).1,
        (run_genes (fun _ => Except.error ("boom")) (fun _ => Except.error ("down")) [] []).2) ∧
    resolve_denominators (fun _ => Except.error ("down")) ["P"] [] =
      (("P", 0) :: (resolve_denominators (fun _ => Except.error ("down")) [] []).1,
        (resolve_denominators (fun _ => Except.error ("down")) [] []).2.1,
        1 + (resolve_denominators (fun _ => Except.error ("down")) [] []).2.2) :=
  ⟨(C6_driver_failure_isolation (fun _ => Except.error ("boom"))
      (fun _ => Except.error ("down"))).2.1 ("g") [] [] ("boom") rfl,
    (C6_driver_failure_isolation (fun _ => Except.error ("boom"))
      (fun _ => Except.error ("down"))).2.2.1 ("P") [] [] ("down") rfl rfl⟩

lemma rowLE_trans : ∀ a b c : DistRow, decide (sortKey b ≤ sortKey a) = true →
    decide (sortKey c ≤ sortKey b) = true → decide (sortKey c ≤ sortKey a) = true := by
  intro a b c h1 h2
  simp only [decide_eq_true_eq] at h1 h2 ⊢
  exact le_trans h2 h1

lemma rowLE_total : ∀ a b : DistRow,
    (decide (sortKey b ≤ sortKey a) || decide (sortKey a ≤ sortKey b)) = true := by
  intro a b
  rcases le_total (sortKey b) (sortKey a) with h | h <;> simp [h]

/-- C2: the aggregated rows are ordered by percentage descending with an
absent percentage keyed as 0, the sort is stable (rows with the same key
keep their original project-iteration order, i.e. their order in
`makeRows`, which lists the occurrence map's entries in order), and the
aggregation is a pure function, so aggregating the same inputs twice
yields the same report. -/
theorem C2_aggregator_sorted_stable (m : OccMap) (totals : List (String × Nat)) :
    (distribution_rows m totals).Pairwise (fun a b => sortKey b ≤ sortKey a) ∧
    (∀ k : ℚ, (distribution_rows m totals).filter (fun r => sortKey r == k) =
      (makeRows m totals).filter (fun r => sortKey r == k)) ∧
    (∀ r : DistRow, r.percent_cases_affected = none → sortKey r = 0) ∧
    distribution_rows m totals = distribution_rows m totals := by
  refine ⟨?_, ?_, ?_, rfl⟩
  · have hp := List.sorted_mergeSort rowLE_trans rowLE_total (makeRows m totals)
    exact hp.imp (fun h => of_decide_eq_true h)
  · intro k
    have hmemk : ∀ r ∈ (makeRows m totals).filter (fun r => sortKey r == k), sortKey r = k := by
      intro r hr
      have := (List.mem_filter.mp hr).2
      simpa using this
    have hpair : ((makeRows m totals).filter (fun r => sortKey r == k)).Pairwise
        (fun a b => decide (sortKey b ≤ sortKey a) = true) := by
      apply List.pairwise_of_forall_mem_list
      intro a ha b hb
      rw [hmemk a ha, hmemk b hb]
      simp
    have hstab := List.sublist_mergeSort rowLE_trans rowLE_total hpair
      (List.filter_sublist (makeRows m totals))
    have hfs : ((makeRows m totals).filter (fun r => sortKey r == k)).filter
        (fun r => sortKey r == k) = (makeRows m totals).filter (fun r => sortKey r == k) :=
      List.filter_eq_self.mpr (fun a ha => (List.mem_filter.mp ha).2)
    have hsub2 := List.Sublist.filter (fun r => sortKey r == k) hstab
    rw [hfs] at hsub2
    have hperm := (List.mergeSort_perm (makeRows m totals)
      (fun a b => decide (sortKey b ≤ sortKey a))).filter (fun r => sortKey r == k)
    exact (hsub2.eq_of_length hperm.length_eq.symm).symm
  · intro r h
    simp [sortKey, h]

/-- Witness for C2 at the scenario inputs (the hypothesis-bearing
conjunct is the absent-percentage key). -/
theorem C2_aggregator_sorted_stable_witness :
    (distribution_rows mA dA).Pairwise (fun a b => sortKey b ≤ sortKey a) ∧
      sortKey (DistRow.mk ("x") 1 0 none) = 0 :=
  ⟨(C2_aggregator_sorted_stable mA dA).1,
    (C2_aggregator_sorted_stable mA dA).2.2.1 (DistRow.mk ("x") 1 0 none) rfl⟩

/-- C5: the scenario occurrence map with denominators 10 and 0 yields
exactly the two expected rows, ProjA (20 percent) first; in general every
occurrence-map entry yields a row whose cases_affected is the case-set
size, whose total is the denominator lookup with default 0, and whose
percentage is cases/total*100 when the total is nonzero and absent
otherwise. -/
theorem C5_aggregator_scenario :
    distribution_rows mA dA =
      [DistRow.mk ("ProjA") 2 10 (some 20), DistRow.mk ("ProjB") 1 0 none] ∧
    ∀ (m : OccMap) (totals : List (String × Nat)) (p : String) (s : Finset String),
      (p, s) ∈ m →
      DistRow.mk p s.card ((totals.lookup p).getD 0)
        (if ((totals.lookup p).getD 0) ≠ 0 then
          some ((s.card : ℚ) / (((totals.lookup p).getD 0 : Nat) : ℚ) * 100) else none)
        ∈ distribution_rows m totals := by
  constructor
  · have hmake : makeRows mA dA =
        [DistRow.mk ("ProjA") 2 10 (some (((2 : Nat) : ℚ) / ((10 : Nat) : ℚ) * 100)),
          DistRow.mk ("ProjB") 1 0 none] := rfl
    have h20 : (((2 : Nat) : ℚ) / ((10 : Nat) : ℚ) * 100) = 20 := by norm_num
    have hrows : makeRows mA dA =
        [DistRow.mk ("ProjA") 2 10 (some 20), DistRow.mk ("ProjB") 1 0 none] := by
      rw [hmake, h20]
    show (makeRows mA dA).mergeSort (fun a b => decide (sortKey b ≤ sortKey a)) = _
    rw [hrows]
    apply List.mergeSort_of_sorted
    refine List.Pairwise.cons ?_ (List.pairwise_singleton _ _)
    intro b hb
    rw [List.mem_singleton.mp hb]
    norm_num [sortKey]
  · intro m totals p s hmem
    have h1 : DistRow.mk p s.card ((totals.lookup p).getD 0)
        (if ((totals.lookup p).getD 0) ≠ 0 then
          some ((s.card : ℚ) / (((totals.lookup p).getD 0 : Nat) : ℚ) * 100) else none)
        ∈ makeRows m totals :=
      List.mem_map.mpr ⟨(p, s), hmem, rfl⟩
    exact ((List.mergeSort_perm (makeRows m totals)
      (fun a b => decide (sortKey b ≤ sortKey a))).mem_iff).mpr h1

/-- Witness for C5's hypothesis-bearing conjunct at the scenario map. -/
theorem C5_aggregator_scenario_witness :
    DistRow.mk ("ProjA") ({"case1", "case2"} : Finset String).card
        ((dA.lookup ("ProjA")).getD 0)
        (if ((dA.lookup ("ProjA")).getD 0) ≠ 0 then
          some ((({"case1", "case2"} : Finset String).card : ℚ) /
            (((dA.lookup ("ProjA")).getD 0 : Nat) : ℚ) * 100) else none)
      ∈ distribution_rows mA dA :=
  C5_aggregator_scenario.2 mA dA ("ProjA") {"case1", "case2"} (List.mem_cons_self _ _)

lemma occ_insert_mem {m : OccMap} {proj cid p : String} {s : Finset String}
    (h : (p, s) ∈ occ_insert m proj cid) : (p, s) ∈ m ∨ s.Nonempty := by
  induction m with
  | nil =>
    simp only [occ_insert, List.mem_singleton] at h
    right
    have hs : s = ({cid} : Finset String) := congrArg Prod.snd h
    rw [hs]
    exact Finset.singleton_nonempty cid
  | cons a t ih =>
    obtain ⟨ap, as⟩ := a
    by_cases hp : ap = proj
    · rw [show occ_insert ((ap, as) :: t) proj cid = (ap, insert cid as) :: t by
        simp [occ_insert, hp]] at h
      rcases List.mem_cons.mp h with heq | htail
      · right
        have hs : s = insert cid as := congrArg Prod.snd heq
        rw [hs]
        exact Finset.insert_nonempty cid as
      · left
        exact List.mem_cons_of_mem _ htail
    · rw [show occ_insert ((ap, as) :: t) proj cid = (ap, as) :: occ_insert t proj cid by
        simp [occ_insert, hp]] at h
      rcases List.mem_cons.mp h with heq | htail
      · left
        rw [heq]
        exact List.mem_cons_self _ _
      · rcases ih htail with hin | hne
        · exact Or.inl (List.mem_cons_of_mem _ hin)
        · exact Or.inr hne

lemma addHit_inv {m m' : OccMap} {item : Hit}
    (ha : addHit m item = Except.ok m') (hI : ∀ p s, (p, s) ∈ m → Finset.Nonempty s) :
    ∀ p s, (p, s) ∈ m' → Finset.Nonempty s := by
  cases hcf : item.caseField with
  | none => exact absurd ha (by simp [addHit, hcf])
  | some hcase =>
    cases hpr : hcase.project with
    | none => exact absurd ha (by simp [addHit, hcf, hpr])
    | some hproj =>
      cases hpid : hproj.project_id with
      | none => exact absurd ha (by simp [addHit, hcf, hpr, hpid])
      | some proj =>
        cases hcid : hcase.case_id with
        | none => exact absurd ha (by simp [addHit, hcf, hpr, hpid, hcid])
        | some cid =>
          have ha' : (if proj ≠ "" ∧ cid ≠ "" then occ_insert m proj cid else m) = m' := by
            have h2 := ha
            rw [show addHit m item =
              Except.ok (if proj ≠ "" ∧ cid ≠ "" then occ_insert m proj cid else m) by
              simp [addHit, hcf, hpr, hpid, hcid]] at h2
            exact Except.ok.inj h2
          by_cases htruthy : proj ≠ "" ∧ cid ≠ ""
          · rw [if_pos htruthy] at ha'
            intro p s hs
            rw [← ha'] at hs
            rcases occ_insert_mem hs with hin | hne
            · exact hI p s hin
            · exact hne
          · rw [if_neg htruthy] at ha'
            rw [← ha']
            exact hI

lemma foldlM_addHit_inv : ∀ (hits : List Hit) (m0 m1 : OccMap),
    hits.foldlM addHit m0 = Except.ok m1 →
    (∀ p s, (p, s) ∈ m0 → Finset.Nonempty s) →
    ∀ p s, (p, s) ∈ m1 → Finset.Nonempty s := by
  intro hits
  induction hits with
  | nil =>
    intro m0 m1 h h0
    have hm : m0 = m1 := Except.ok.inj h
    rw [← hm]
    exact h0
  | cons a t ih =>
    intro m0 m1 h h0
    rw [List.foldlM_cons] at h
    cases ha : addHit m0 a with
    | error e =>
      rw [ha] at h
      exact absurd h (fun hx => Except.noConfusion hx)
    | ok m' =>
      rw [ha] at h
      have hb : (Except.ok m' >>= fun x => List.foldlM addHit x t) =
          List.foldlM addHit m' t := rfl
      rw [hb] at h
      exact ih m' m1 h (addHit_inv ha h0)

/-- C10: every project key of a fetcher-produced occurrence map carries a
nonempty case set, so every aggregated row has at least one affected case
and every present percentage is strictly positive. -/
theorem C10_rows_nonempty_positive (resp : Except String (List Hit)) (m : OccMap)
    (h : get_mutated_cases_by_project resp = Except.ok m) :
    (∀ p s, (p, s) ∈ m → Finset.Nonempty s) ∧
    ∀ (totals : List (String × Nat)) (r : DistRow), r ∈ distribution_rows m totals →
      1 ≤ r.cases_affected ∧ ∀ q : ℚ, r.percent_cases_affected = some q → 0 < q := by
  have hmain : ∀ p s, (p, s) ∈ m → Finset.Nonempty s := by
    cases resp with
    | error e => exact absurd h (by simp [get_mutated_cases_by_project])
    | ok hits =>
      simp only [get_mutated_cases_by_project] at h
      exact foldlM_addHit_inv hits [] m h (fun p s hs => absurd hs (List.not_mem_nil _))
  refine ⟨hmain, ?_⟩
  intro totals r hr
  simp only [distribution_rows] at hr
  have hr' : r ∈ makeRows m totals := ((List.mergeSort_perm (makeRows m totals)
    (fun a b => decide (sortKey b ≤ sortKey a))).mem_iff).mp hr
  obtain ⟨⟨p, s⟩, hmem, heq⟩ := List.mem_map.mp hr'
  have hcard : 0 < s.card := Finset.card_pos.mpr (hmain p s hmem)
  constructor
  · have hca : r.cases_affected = s.card := by rw [← heq]
    rw [hca]
    exact hcard
  · intro q hq
    have hper : r.percent_cases_affected =
        (if ((totals.lookup p).getD 0) ≠ 0 then
          some ((s.card : ℚ) / (((totals.lookup p).getD 0 : Nat) : ℚ) * 100) else none) := by
      rw [← heq]
    rw [hper] at hq
    by_cases ht : ((totals.lookup p).getD 0) ≠ 0
    · rw [if_pos ht] at hq
      have hq' : (s.card : ℚ) / (((totals.lookup p).getD 0 : Nat) : ℚ) * 100 = q :=
        Option.some.inj hq
      rw [← hq']
      have h1 : (0 : ℚ) < (s.card : ℚ) := by exact_mod_cast hcard
      have h2 : (0 : ℚ) < (((totals.lookup p).getD 0 : Nat) : ℚ) := by
        exact_mod_cast Nat.pos_of_ne_zero ht
      have h3 : (0 : ℚ) < (s.card : ℚ) / (((totals.lookup p).getD 0 : Nat) : ℚ) :=
        div_pos h1 h2
      have h4 : (0 : ℚ) < 100 := by norm_num
      exact mul_pos h3 h4
    · rw [if_neg ht] at hq
      exact Option.noConfusion hq

/-- Witness for C10 at a one-hit response. -/
theorem C10_rows_nonempty_positive_witness :
    (∀ p s, (p, s) ∈ ([("P1", {"c1"})] : OccMap) → Finset.Nonempty s) ∧
    ∀ (totals : List (String × Nat)) (r : DistRow),
      r ∈ distribution_rows ([("P1", {"c1"})] : OccMap) totals →
      1 ≤ r.cases_affected ∧ ∀ q : ℚ, r.percent_cases_affected = some q → 0 < q :=
  C10_rows_nonempty_positive (Except.ok [hitOf ("P1") ("c1")]) [("P1", {"c1"})] rfl

lemma row_step_mem {i : Nat} {acc : Finset String} {line x : String}
    (h : x ∈ row_step i acc line) :
    x ∈ acc ∨ (pyStartswith x genePref = true ∧ '.' ∉ x.data) := by
  simp only [row_step] at h
  split at h
  · exact Or.inl h
  · split at h
    · exact Or.inl h
    · split at h
      · exact Or.inl h
      · split at h
        · rcases Finset.mem_insert.mp h with hx | hx
          · right
            subst hx
            constructor
            · rename_i hguard
              exact hguard
            · intro hdot
              have hw := List.mem_takeWhile_imp hdot
              simp at hw
          · exact Or.inl hx
        · exact Or.inl h

lemma foldl_row_step_inv (i : Nat) : ∀ (ls : List String) (acc : Finset String),
    (∀ x ∈ acc, pyStartswith x genePref = true ∧ '.' ∉ x.data) →
    ∀ x ∈ ls.foldl (row_step i) acc, pyStartswith x genePref = true ∧ '.' ∉ x.data := by
  intro ls
  induction ls with
  | nil => intro acc h0 x hx; exact h0 x hx
  | cons l t ih =>
    intro acc h0 x hx
    rw [List.foldl_cons] at hx
    refine ih (row_step i acc l) ?_ x hx
    intro y hy
    rcases row_step_mem hy with hin | hnew
    · exact h0 y hin
    · exact hnew

/-- C4: for every table whose header row has a cell that strips and
lowers to "to", the loader succeeds with a lexicographically sorted,
duplicate-free list in which every entry has the gene prefix and carries
no dot (version suffixes are cut at the first dot); and the
specification's three-row scenario yields exactly the one id. -/
theorem C4_loader_output_canonical :
    (∀ lines : List String,
      (∃ ch ∈ pySplit '\t' (lines.headD ""), pyLower (pyStrip ch) = "to") →
      ∃ out, load_gene_ids lines = Except.ok out ∧
        List.Sorted (fun a b : String => a ≤ b) out ∧ out.Nodup ∧
        ∀ x ∈ out, pyStartswith x genePref = true ∧ '.' ∉ x.data) ∧
    load_gene_ids scenLines = Except.ok ["ENSG00000100342"] := by
  constructor
  · intro lines hex
    obtain ⟨ch, hch, hto⟩ := hex
    cases hf : (pySplit '\t' (lines.headD "")).findIdx?
        (fun h => pyLower (pyStrip h) == "to") with
    | none =>
      exfalso
      have hzero := List.findIdx?_eq_none_iff.mp hf ch hch
      simp [hto] at hzero
    | some i =>
      refine ⟨(lines.tail.foldl (row_step i) ∅).sort (fun a b => a ≤ b), ?_,
        Finset.sort_sorted _ _, Finset.sort_nodup _ _, ?_⟩
      · simp only [load_gene_ids, hf]
      · intro x hx
        have hx' : x ∈ lines.tail.foldl (row_step i) ∅ := (Finset.mem_sort _).mp hx
        exact foldl_row_step_inv i lines.tail ∅
          (fun y hy => absurd hy (Finset.not_mem_empty y)) x hx'
  · have hS : (scenLines.tail.foldl (row_step 1) ∅ : Finset String) =
        {"ENSG00000100342"} := by decide
    have h1 : load_gene_ids scenLines =
        Except.ok ((scenLines.tail.foldl (row_step 1) ∅).sort (fun a b => a ≤ b)) := rfl
    rw [h1, hS, Finset.sort_singleton]

/-- Witness for C4 at the scenario table. -/
theorem C4_loader_output_canonical_witness :
    ∃ out, load_gene_ids scenLines = Except.ok out ∧
      List.Sorted (fun a b : String => a ≤ b) out ∧ out.Nodup ∧
      ∀ x ∈ out, pyStartswith x genePref = true ∧ '.' ∉ x.data :=
  C4_loader_output_canonical.1 scenLines ⟨"To", by decide, by decide⟩

/-- C9: the loader fails exactly when no header cell strips and lowers to
"to", and a loader failure makes the whole run abort with that error. -/
theorem C9_to_column_iff_error (lines : List String) :
    ((∃ e, load_gene_ids lines = Except.error e) ↔
      ∀ ch ∈ pySplit '\t' (lines.headD ""), ¬ pyLower (pyStrip ch) = "to") ∧
    ∀ (occ : String → Except String (List Hit)) (net : String → Except String Nat) (e : String),
      load_gene_ids lines = Except.error e → main_run occ net lines = Except.error e := by
  constructor
  · constructor
    · rintro ⟨e, he⟩ ch hch hto
      cases hf : (pySplit '\t' (lines.headD "")).findIdx?
          (fun h => pyLower (pyStrip h) == "to") with
      | none =>
        have hzero := List.findIdx?_eq_none_iff.mp hf ch hch
        simp [hto] at hzero
      | some i =>
        simp only [load_gene_ids, hf] at he
        exact Except.noConfusion he
    · intro hall
      have hf : (pySplit '\t' (lines.headD "")).findIdx?
          (fun h => pyLower (pyStrip h) == "to") = none := by
        apply List.findIdx?_eq_none_iff.mpr
        intro x hx
        simpa using hall x hx
      exact ⟨"no To column", by simp only [load_gene_ids, hf]⟩
  · intro occ net e he
    simp only [main_run, he]

/-- Witness for C9's abort conjunct on a table with no To column. -/
theorem C9_to_column_iff_error_witness :
    main_run (fun _ => Except.ok []) (fun _ => Except.ok 0) ["From\tGene"] =
      Except.error ("no To column") :=
  (C9_to_column_iff_error ["From\tGene"]).2 (fun _ => Except.ok []) (fun _ => Except.ok 0)
    ("no To column") rfl

lemma foldlM_addHit_total : ∀ hits : List Hit,
    (∀ item ∈ hits, ∃ pid cid, item = hitOf pid cid) →
    ∀ m0 : OccMap, ∃ m1, hits.foldlM addHit m0 = Except.ok m1 := by
  intro hits
  induction hits with
  | nil => intro hw m0; exact ⟨m0, rfl⟩
  | cons b u ihu =>
    intro hw m0
    obtain ⟨pidb, cidb, hb⟩ := hw b (List.mem_cons_self _ _)
    have hstepb : ∃ mb, addHit m0 b = Except.ok mb := by
      rw [hb]
      by_cases htruthy : pidb ≠ "" ∧ cidb ≠ ""
      · exact ⟨occ_insert m0 pidb cidb, by simp [addHit, hitOf, htruthy]⟩
      · exact ⟨m0, by simp [addHit, hitOf, htruthy]⟩
    obtain ⟨mb, hmb⟩ := hstepb
    obtain ⟨m1, hm1⟩ := ihu (fun x hx => hw x (List.mem_cons_of_mem _ hx)) mb
    refine ⟨m1, ?_⟩
    rw [List.foldlM_cons, hmb]
    exact hm1

/-- C3 counterexample: on a response with one hit that lacks the case
field entirely, the Occurrence Fetcher does not silently discard the hit
and return the map of the remaining (zero) well-formed hits — it raises
(`KeyError`, surfacing as an error), contradicting the claim that such a
hit is dropped without raising. -/
theorem C3_missing_field_counterexample :
    get_mutated_cases_by_project (Except.ok [Hit.mk none]) =
      Except.error ("KeyError: case") ∧
    get_mutated_cases_by_project (Except.ok [Hit.mk none]) ≠
      Except.ok ([] : OccMap) :=
  ⟨rfl, fun h => Except.noConfusion h⟩

/-- C3 amended: on a successful response, hits whose project or case
identifier is present but falsy (empty) are silently discarded while the
rest are processed; but a hit that is missing the case or project field
entirely makes the whole call raise instead of being skipped: (i) a hit
list in which every hit carries all nested fields never raises; (ii) a
falsy project or case id leaves the map unchanged, silently; (iii) a
complete hit with truthy ids is added; (iv) a hit lacking the case field
raises KeyError case; (v) a hit whose case object lacks the project field
raises KeyError project; (vi) a hit whose project object lacks the
project_id field raises KeyError project_id; (vii) a hit whose case
object lacks the case_id field raises KeyError case_id (after the project
chain resolved, matching the source's evaluation order). -/
theorem C3_malformed_hit_amended :
    (∀ hits : List Hit, (∀ item ∈ hits, ∃ pid cid, item = hitOf pid cid) →
      ∃ m : OccMap, get_mutated_cases_by_project (Except.ok hits) = Except.ok m) ∧
    (∀ (m : OccMap) (pid cid : String), pid = "" ∨ cid = "" →
      addHit m (hitOf pid cid) = Except.ok m) ∧
    (∀ (m : OccMap) (pid cid : String), pid ≠ "" → cid ≠ "" →
      addHit m (hitOf pid cid) = Except.ok (occ_insert m pid cid)) ∧
    (∀ (m : OccMap) (item : Hit), item.caseField = none →
      addHit m item = Except.error ("KeyError: case")) ∧
    (∀ (m : OccMap) (cid : Option String),
      addHit m (Hit.mk (some (HitCase.mk none cid))) =
        Except.error ("KeyError: project")) ∧
    (∀ (m : OccMap) (cid : Option String),
      addHit m (Hit.mk (some (HitCase.mk (some (HitProject.mk none)) cid))) =
        Except.error ("KeyError: project_id")) ∧
    (∀ (m : OccMap) (pid : String),
      addHit m (Hit.mk (some (HitCase.mk (some (HitProject.mk (some pid))) none))) =
        Except.error ("KeyError: case_id")) := by
  refine ⟨?_, ?_, ?_, ?_, fun m cid => rfl, fun m cid => rfl, fun m pid => rfl⟩
  · intro hits hw
    simp only [get_mutated_cases_by_project]
    exact foldlM_addHit_total hits hw []
  · intro m pid cid hfalsy
    have hneg : ¬(pid ≠ "" ∧ cid ≠ "") := by
      rcases hfalsy with h | h <;> simp [h]
    simp [addHit, hitOf, hneg]
  · intro m pid cid hp hc
    simp [addHit, hitOf, hp, hc]
  · intro m item hcf
    simp [addHit, hcf]

/-- Witness for C3's amended statement at concrete hits, one per
missing-field shape. -/
theorem C3_malformed_hit_amended_witness :
    (∃ m : OccMap,
      get_mutated_cases_by_project (Except.ok [hitOf ("P1") ("c1"), hitOf ("") ("c2")]) =
        Except.ok m) ∧
    addHit [] (hitOf ("") ("c2")) = Except.ok [] ∧
    addHit [] (hitOf ("P1") ("c1")) = Except.ok (occ_insert [] ("P1") ("c1")) ∧
    addHit [] (Hit.mk none) = Except.error ("KeyError: case") ∧
    addHit [] (Hit.mk (some (HitCase.mk none (some ("c3"))))) =
      Except.error ("KeyError: project") ∧
    addHit [] (Hit.mk (some (HitCase.mk (some (HitProject.mk none)) (some ("c4"))))) =
      Except.error ("KeyError: project_id") ∧
    addHit [] (Hit.mk (some (HitCase.mk (some (HitProject.mk (some ("P2")))) none))) =
      Except.error ("KeyError: case_id") :=
  ⟨C3_malformed_hit_amended.1 [hitOf ("P1") ("c1"), hitOf ("") ("c2")]
      (by intro item hitem
          rcases List.mem_cons.mp hitem with h | h
          · exact ⟨"P1", "c1", h⟩
          · exact ⟨"", "c2", List.mem_singleton.mp h⟩),
    C3_malformed_hit_amended.2.1 [] ("") ("c2") (Or.inl rfl),
    C3_malformed_hit_amended.2.2.1 [] ("P1") ("c1") (by decide) (by decide),
    C3_malformed_hit_amended.2.2.2.1 [] (Hit.mk none) rfl,
    C3_malformed_hit_amended.2.2.2.2.1 [] (some ("c3")),
    C3_malformed_hit_amended.2.2.2.2.2.1 [] (some ("c4")),
    C3_malformed_hit_amended.2.2.2.2.2.2 [] ("P2")⟩

lemma digitChar_toNat : ∀ d, d < 10 → (digitChar d).toNat = 48 + d := by decide

lemma digitChar_bounds : ∀ d, d < 10 →
    (48 ≤ (digitChar d).toNat ∧ (digitChar d).toNat ≤ 57) := by decide

lemma digitChar_ne_dash : ∀ d, d < 10 → digitChar d ≠ '-' := by decide

lemma digitChar_ne_slash : ∀ d, d < 10 → digitChar d ≠ '/' := by decide

lemma natChars_mem {n : Nat} {c : Char} (hc : c ∈ natChars n) :
    ∃ d, d < 10 ∧ c = digitChar d := by
  simp only [natChars, List.mem_reverse, List.mem_map] at hc
  obtain ⟨d, hd, rfl⟩ := hc
  exact ⟨d, Nat.digits_lt_base (by norm_num) hd, rfl⟩

lemma natCharsFull_mem {n : Nat} {c : Char} (hc : c ∈ natCharsFull n) :
    ∃ d, d < 10 ∧ c = digitChar d := by
  by_cases h0 : n = 0
  · subst h0
    rw [show natCharsFull 0 = ['0'] from rfl] at hc
    refine ⟨0, by norm_num, ?_⟩
    rw [List.mem_singleton.mp hc]
    rfl
  · rw [natCharsFull, if_neg h0] at hc
    exact natChars_mem hc

lemma natCharsFull_ne_nil (n : Nat) : natCharsFull n ≠ [] := by
  by_cases h0 : n = 0
  · subst h0; simp [natCharsFull]
  · rw [natCharsFull, if_neg h0]
    simp only [natChars, ne_eq, List.reverse_eq_nil_iff, List.map_eq_nil_iff]
    exact Nat.digits_ne_nil_iff_ne_zero.mpr h0

lemma foldr_mul_add_ofDigits : ∀ L : List Nat,
    L.foldr (fun x y => y * 10 + x) 0 = Nat.ofDigits 10 L := by
  intro L
  induction L with
  | nil => simp [Nat.ofDigits]
  | cons d t iht =>
    rw [List.foldr_cons, iht, Nat.ofDigits_cons]
    ring

lemma natParseChars_natCharsFull (n : Nat) : natParseChars (natCharsFull n) = some n := by
  by_cases h0 : n = 0
  · subst h0; decide
  · have hne : natCharsFull n ≠ [] := natCharsFull_ne_nil n
    have hEm : (natCharsFull n).isEmpty = false := by
      cases hx : natCharsFull n with
      | nil => exact absurd hx hne
      | cons a t => rfl
    have hall : (natCharsFull n).all (fun c => 48 ≤ c.toNat ∧ c.toNat ≤ 57) = true := by
      rw [List.all_eq_true]
      intro c hc
      obtain ⟨d, hd, rfl⟩ := natCharsFull_mem hc
      have := digitChar_bounds d hd
      simpa using this
    rw [natParseChars, hEm, if_neg (by simp), hall, if_pos rfl]
    congr 1
    rw [natCharsFull, if_neg h0, natChars, ← List.map_reverse, List.foldl_map]
    have hext : (Nat.digits 10 n).reverse.foldl
        (fun acc d => acc * 10 + ((digitChar d).toNat - 48)) 0 =
        (Nat.digits 10 n).reverse.foldl (fun acc d => acc * 10 + d) 0 := by
      apply List.foldl_ext
      intro a d hd
      have hlt : d < 10 := Nat.digits_lt_base (by norm_num) (List.mem_reverse.mp hd)
      rw [digitChar_toNat d hlt]
      omega
    rw [hext, List.foldl_reverse, foldr_mul_add_ofDigits, Nat.ofDigits_digits]

lemma intParseChars_intChars (i : Int) : intParseChars (intChars i) = some i := by
  by_cases hneg : i < 0
  · rw [show intChars i = '-' :: natCharsFull i.natAbs by simp [intChars, hneg]]
    rw [show intParseChars ('-' :: natCharsFull i.natAbs) =
      (natParseChars (natCharsFull i.natAbs)).map (fun n => -(n : Int)) by
      simp [intParseChars]]
    rw [natParseChars_natCharsFull]
    have habs : ((i.natAbs : Int)) = -i := Int.ofNat_natAbs_of_nonpos (le_of_lt hneg)
    simp [habs]
  · have hpos : 0 ≤ i := not_lt.mp hneg
    rw [show intChars i = natCharsFull i.natAbs by simp [intChars, hneg]]
    cases hsh : natCharsFull i.natAbs with
    | nil => exact absurd hsh (natCharsFull_ne_nil _)
    | cons c rest =>
      have hcmem : c ∈ natCharsFull i.natAbs := by
        rw [hsh]; exact List.mem_cons_self _ _
      obtain ⟨d, hd, rfl⟩ := natCharsFull_mem hcmem
      have hne : digitChar d ≠ '-' := digitChar_ne_dash d hd
      rw [show intParseChars (digitChar d :: rest) =
        (natParseChars (digitChar d :: rest)).map (fun n => (n : Int)) by
        simp [intParseChars, hne]]
      rw [← hsh, natParseChars_natCharsFull]
      have habs : ((i.natAbs : Int)) = i := Int.natAbs_of_nonneg hpos
      simp [habs]

lemma takeWhile_dropWhile_stop {l₁ l₂ : List Char} {x : Char} {p : Char → Bool}
    (h : ∀ c ∈ l₁, p c = true) (hx : p x = false) :
    (l₁ ++ x :: l₂).takeWhile p = l₁ ∧ (l₁ ++ x :: l₂).dropWhile p = x :: l₂ := by
  induction l₁ with
  | nil => simp [List.takeWhile_cons, List.dropWhile_cons, hx]
  | cons c t ih =>
    have hc : p c = true := h c (List.mem_cons_self _ _)
    obtain ⟨ih1, ih2⟩ := ih (fun y hy => h y (List.mem_cons_of_mem _ hy))
    constructor
    · rw [List.cons_append, List.takeWhile_cons, hc]
      simp [ih1]
    · rw [List.cons_append, List.dropWhile_cons, hc]
      simp [ih2]

lemma intChars_notSlash {i : Int} : ∀ c ∈ intChars i, notSlash c = true := by
  intro c hc
  rw [intChars] at hc
  rcases List.mem_append.mp hc with hm | hm
  · have : c = '-' := by
      by_cases hneg : i < 0
      · rw [if_pos hneg] at hm; exact List.mem_singleton.mp hm
      · rw [if_neg hneg] at hm; exact absurd hm (List.not_mem_nil c)
    rw [this]; rfl
  · obtain ⟨d, hd, rfl⟩ := natCharsFull_mem hm
    have := digitChar_ne_slash d hd
    simpa [notSlash] using this

lemma ratParse_ratSerialize (q : ℚ) : ratParse (ratSerialize q) = some q := by
  have hdata : (ratSerialize q).data = intChars q.num ++ '/' :: natCharsFull q.den := rfl
  have hx : notSlash '/' = false := rfl
  obtain ⟨htake, hdrop⟩ := takeWhile_dropWhile_stop (intChars_notSlash (i := q.num)) hx
  rw [ratParse, hdata, hdrop, htake]
  simp [intParseChars_intChars, natParseChars_natCharsFull, Rat.mkRat_self]

lemma ratSerialize_ne_empty (q : ℚ) : ratSerialize q ≠ "" := by
  intro h
  have hd := congrArg String.data h
  rw [show (ratSerialize q).data = intChars q.num ++ '/' :: natCharsFull q.den from rfl] at hd
  simp at hd

lemma natParse_natSerialize (n : Nat) : natParse (natSerialize n) = some n :=
  natParseChars_natCharsFull n

lemma parseRecord_rowFields (r : DistRow) : parseRecord (rowFields r) = some r := by
  obtain ⟨p, ca, ts, pct⟩ := r
  cases pct with
  | none =>
    show parseRecord [p, natSerialize ca, natSerialize ts, ""] = _
    simp [parseRecord, natParse_natSerialize]
  | some q =>
    show parseRecord [p, natSerialize ca, natSerialize ts, ratSerialize q] = _
    simp [parseRecord, natParse_natSerialize, ratSerialize_ne_empty q, ratParse_ratSerialize q]

lemma mapM_parseRecord (rows : List DistRow) :
    (rows.map rowFields).mapM parseRecord = some rows := by
  induction rows with
  | nil => rfl
  | cons r t ih =>
    rw [List.map_cons, List.mapM_cons, parseRecord_rowFields, ih]
    rfl

/-- C8: the writer emits the exact four-name header record, then one
record per row in the report's order, serializing an absent percentage as
an empty field; re-parsing the records under that header restores exactly
the report, with an empty percentage field corresponding to an absent
percentage and a nonempty one to a numeric value; and the full writer
pairs this body with the gene's output path. -/
theorem C8_writer_round_trip (gene_id : String) (report : List DistRow) :
    (write_report report).headD [] =
      ["project_id", "cases_affected", "total_cases_with_ssm_data", "percent_cases_affected"] ∧
    (write_report report).tail = report.map rowFields ∧
    (∀ r : DistRow, ((rowFields r).getD 3 "" = "" ↔ r.percent_cases_affected = none)) ∧
    parse_report (write_report report) = some report ∧
    (∀ (m : OccMap) (totals : List (String × Nat)),
      write_cancer_distribution_tsv gene_id m totals =
        (out_path gene_id, write_report (distribution_rows m totals))) := by
  refine ⟨rfl, rfl, ?_, ?_, fun m totals => rfl⟩
  · intro r
    obtain ⟨p, ca, ts, pct⟩ := r
    cases pct with
    | none => simp [rowFields]
    | some q => simp [rowFields, ratSerialize_ne_empty q]
  · rw [show write_report report = tsv_header :: report.map rowFields from rfl, parse_report]
    rw [if_pos rfl, mapM_parseRecord]
